import Mathlib

/-!
Verification of `src/addon/validation.cpp` (Wesnoth add-on validation):
the binary-safe escape codec, filename legality checks, case-insensitive
duplicate detection, content hashing, and the recursive tree-diff that
builds update packs. Byte strings are modelled as `List Nat` (each entry a
byte value), `config` trees of `[file]`/`[dir]` children as a mutual
inductive of directory nodes and child lists.
-/

namespace Wesnoth

/-! ## Binary codec (`needs_escaping`, `encode_binary`, `unencode_binary`) -/

/-- Byte values that must be escaped: NUL, the escape marker 0x01,
carriage return 0x0D, and 0xFE (from `needs_escaping`). -/
def needs_escaping (c : Nat) : Bool :=
  c == 0 || c == 1 || c == 13 || c == 254

/-- `encode_binary`: each byte needing escaping is emitted as the pair
`[0x01, byte + 1]` (byte arithmetic, hence mod 256); other bytes pass
through unchanged. -/
def encode_binary : List Nat → List Nat
  | [] => []
  | c :: rest =>
    if needs_escaping c then 1 :: ((c + 1) % 256) :: encode_binary rest
    else c :: encode_binary rest

/-- `unencode_binary`: a marker byte 0x01 followed by some byte `b` is
decoded to `b - 1` (byte arithmetic, hence `(b + 255) % 256`); a marker as
the very last byte is emitted literally; other bytes pass through. -/
def unencode_binary : List Nat → List Nat
  | [] => []
  | c :: rest =>
    if c == 1 then
      match rest with
      | [] => [c]
      | b :: rest2 => ((b + 255) % 256) :: unencode_binary rest2
    else c :: unencode_binary rest

/-- Whether every byte of the list is the escape marker 0x01. -/
def allOnes : List Nat → Bool
  | [] => true
  | c :: rest => c == 1 && allOnes rest

/-- Length of the maximal run of escape-marker bytes 0x01 at the end of
the list. -/
def trailOnes : List Nat → Nat
  | [] => 0
  | c :: rest => if allOnes (c :: rest) then rest.length + 1 else trailOnes rest

/-! ## Filename legality (`addon_filename_legal`) over byte strings -/

/-- Byte list of an ASCII string literal (`std::string` holds bytes). -/
def strBytes (s : String) : List Nat :=
  s.data.map Char.toNat

/-- Whether the byte string contains the substring `..` (two bytes 0x2E). -/
def hasDotDot : List Nat → Bool
  | a :: b :: rest => (a == 46 && b == 46) || hasDotDot (b :: rest)
  | _ => false

/-- ASCII-only upper-casing of a byte string, as `to_upper_copy` with the
classic locale: bytes `a`-`z` map to `A`-`Z`, all others are unchanged. -/
def toUpperAscii (l : List Nat) : List Nat :=
  l.map (fun b => if 97 ≤ b ∧ b ≤ 122 then b - 32 else b)

/-- The reserved DOS device names (`dos_device_names` in the source). -/
def dos_device_names : List (List Nat) :=
  [strBytes ("NUL"), strBytes ("CON"), strBytes ("AUX"), strBytes ("PRN"),
   strBytes ("CONIN$"), strBytes ("CONOUT$"),
   strBytes ("COM1"), strBytes ("COM2"), strBytes ("COM3"), strBytes ("COM4"),
   strBytes ("COM5"), strBytes ("COM6"), strBytes ("COM7"), strBytes ("COM8"),
   strBytes ("COM9"),
   strBytes ("LPT1"), strBytes ("LPT2"), strBytes ("LPT3"), strBytes ("LPT4"),
   strBytes ("LPT5"), strBytes ("LPT6"), strBytes ("LPT7"), strBytes ("LPT8"),
   strBytes ("LPT9")]

/-- Whether a byte is a UTF-8 continuation byte (`10xxxxxx`). -/
def isCont (b : Nat) : Bool :=
  decide (128 ≤ b ∧ b < 192)

/-- Modelled from the spec: `unicode_cast<std::u32string>` of
`serialization/unicode_cast.hpp` is not under `src/`; per the spec the name
"is decoded as UTF-8 into code points". This decoder consumes well-formed
multi-byte sequences by bit pattern (without rejecting overlong forms or
surrogates, which the reencoding check and the code-point denylist handle);
a stray or truncated byte is passed through as its own code point, so that
re-encoding cannot reproduce the original bytes. Each step consumes at
least one byte, so the byte count is enough fuel. -/
def utf8_decode_go : Nat → List Nat → List Nat
  | _, [] => []
  | 0, l => l
  | fuel + 1, b :: rest =>
    if b < 192 then b :: utf8_decode_go fuel rest
    else if b < 224 then
      match rest with
      | b2 :: r2 =>
        if isCont b2 then ((b - 192) * 64 + (b2 - 128)) :: utf8_decode_go fuel r2
        else b :: utf8_decode_go fuel (b2 :: r2)
      | [] => [b]
    else if b < 240 then
      match rest with
      | b2 :: b3 :: r3 =>
        if isCont b2 && isCont b3 then
          ((b - 224) * 4096 + (b2 - 128) * 64 + (b3 - 128)) :: utf8_decode_go fuel r3
        else b :: utf8_decode_go fuel (b2 :: b3 :: r3)
      | l => b :: utf8_decode_go fuel l
    else if b < 248 then
      match rest with
      | b2 :: b3 :: b4 :: r4 =>
        if isCont b2 && isCont b3 && isCont b4 then
          ((b - 240) * 262144 + (b2 - 128) * 4096 + (b3 - 128) * 64 + (b4 - 128)) ::
            utf8_decode_go fuel r4
        else b :: utf8_decode_go fuel (b2 :: b3 :: b4 :: r4)
      | l => b :: utf8_decode_go fuel l
    else b :: utf8_decode_go fuel rest

/-- The full UTF-8 decoding of a byte string into code points. -/
def utf8_decode (l : List Nat) : List Nat :=
  utf8_decode_go l.length l

/-- Modelled from the spec: the re-encoding half of the Unicode round trip
("decoded ... into code points and re-encoded"); standard shortest-form
UTF-8 encoding of one code point. -/
def utf8_encodeChar (c : Nat) : List Nat :=
  if c < 128 then [c]
  else if c < 2048 then [192 + c / 64, 128 + c % 64]
  else if c < 65536 then [224 + c / 4096, 128 + (c / 64) % 64, 128 + c % 64]
  else [240 + c / 262144, 128 + (c / 4096) % 64, 128 + (c / 64) % 64, 128 + c % 64]

/-- Modelled from the spec: `unicode_cast<std::string>` applied to a code
point sequence, i.e. the concatenation of the UTF-8 encodings. -/
def utf8_encode (l : List Nat) : List Nat :=
  (l.map utf8_encodeChar).flatten

/-- The code-point denylist `addon_filename_ucs4char_illegal`: space and
the listed punctuation, DEL, C0 controls, C1 controls, and UTF-16
surrogate code points. -/
def addon_filename_ucs4char_illegal (c : Nat) : Bool :=
  c == 32 || c == 34 || c == 42 || c == 47 || c == 58 || c == 60 || c == 62 ||
  c == 63 || c == 92 || c == 124 || c == 126 || c == 127 ||
  decide (c < 32) || decide (128 ≤ c ∧ c < 160) || decide (55296 ≤ c ∧ c < 57344)

/-- `addon_filename_legal`: rejects the empty name, a trailing `.`, any
occurrence of `..`, names over 255 bytes, names whose upper-cased stem
(portion before the first `.`) is a reserved DOS device name, names that
do not survive the UTF-8 decode/re-encode round trip, and names whose
decoded code points hit the denylist. -/
def addon_filename_legal (name : List Nat) : Bool :=
  if name.isEmpty || name.getLast? == some 46 || hasDotDot name ||
      decide (255 < name.length) then
    false
  else if dos_device_names.any
      (fun d => d == toUpperAscii (name.takeWhile (fun b => !(b == 46)))) then
    false
  else if !(utf8_encode (utf8_decode name) == name) then
    false
  else
    !((utf8_decode name).any addon_filename_ucs4char_illegal)

/-! ## Config trees of `[file]` and `[dir]` children

A `[file]` child carries the attributes `name`, `contents` and `hash`
(a missing attribute of a `config` reads as the empty string). A `[dir]`
child carries `name` plus its own `[file]` and `[dir]` children in
insertion order. The digest `utils::md5(...).base64_digest()` of
`hash.hpp` is external to this translation unit, so every function takes
the digest as an explicit parameter `md5`. -/

structure FileC where
  name : String
  contents : String
  hash : String
deriving DecidableEq

mutual

inductive DirC : Type where
  | mk : String → List FileC → DirList → DirC

inductive DirList : Type where
  | nil : DirList
  | cons : DirC → DirList → DirList

end

def DirC.name : DirC → String
  | .mk n _ _ => n

def DirC.files : DirC → List FileC
  | .mk _ fs _ => fs

def DirC.dirs : DirC → DirList
  | .mk _ _ ds => ds

def DirList.toList : DirList → List DirC
  | .nil => []
  | .cons d rest => d :: rest.toList

def DirList.isEmpty : DirList → Bool
  | .nil => true
  | .cons _ _ => false

/-- `find_child("dir", "name", n)`: the first directory child whose name
attribute equals `n`. -/
def DirList.findByName (n : String) : DirList → Option DirC
  | .nil => none
  | .cons d rest => if d.name == n then some d else rest.findByName n

/-- `file_hash_raw`: the digest of the file's contents. -/
def file_hash_raw (md5 : String → String) (f : FileC) : String :=
  md5 f.contents

/-- `file_hash`: the cached `hash` attribute when non-empty, otherwise the
digest computed from the contents. -/
def file_hash (md5 : String → String) (f : FileC) : String :=
  if f.hash = "" then file_hash_raw md5 f else f.hash

/-- `comp_file_hash`: files are identical iff names match and hashes
match. -/
def comp_file_hash (md5 : String → String) (a b : FileC) : Bool :=
  a.name == b.name && file_hash md5 a == file_hash md5 b

mutual

/-- `contains_hashlist(from, to)`: every file of `to` must have a
same-name same-hash counterpart among `from`'s files, and every
subdirectory of `to` must be contained in the first same-named
subdirectory of `from` (a synthetic empty directory when none exists). -/
def contains_hashlist (md5 : String → String) (src : DirC) : DirC → Bool
  | .mk _ fs ds =>
    (fs.all (fun f => src.files.any (fun g => comp_file_hash md5 f g))) &&
    containsDirs md5 src ds

/-- The loop of `contains_hashlist` over `to`'s directory children. -/
def containsDirs (md5 : String → String) (src : DirC) : DirList → Bool
  | .nil => true
  | .cons d rest =>
    (match src.dirs.findByName d.name with
     | some o => contains_hashlist md5 o d
     | none => contains_hashlist md5 (DirC.mk d.name [] .nil) d) &&
    containsDirs md5 src rest

end

mutual

/-- `write_hashlist`: emits, for each file child, a child with the name
and the hash `file_hash_raw(f)` (the digest recomputed from the contents),
and recurses into directory children. -/
def write_hashlist (md5 : String → String) : DirC → DirC
  | .mk n fs ds =>
    DirC.mk n (fs.map (fun f => ⟨f.name, "", file_hash_raw md5 f⟩))
      (write_hashlistDirs md5 ds)

/-- The loop of `write_hashlist` over directory children. -/
def write_hashlistDirs (md5 : String → String) : DirList → DirList
  | .nil => .nil
  | .cons d rest => .cons (write_hashlist md5 d) (write_hashlistDirs md5 rest)

end

mutual

/-- The spec's `build_hashlist`: for each file emit `(name, hash_of(file))`
where `hash_of` is the cached-or-computed `file_hash`, for each
subdirectory the recursively built hash list. Stated from the spec's words,
to be compared with `write_hashlist` above. -/
def build_hashlist_spec (md5 : String → String) : DirC → DirC
  | .mk n fs ds =>
    DirC.mk n (fs.map (fun f => ⟨f.name, "", file_hash md5 f⟩))
      (build_hashlist_specDirs md5 ds)

/-- The directory loop of `build_hashlist_spec`. -/
def build_hashlist_specDirs (md5 : String → String) : DirList → DirList
  | .nil => .nil
  | .cons d rest => .cons (build_hashlist_spec md5 d) (build_hashlist_specDirs md5 rest)

end

mutual

/-- Whether every file node of the tree has an empty cached hash or a
cached hash equal to the digest of its contents. -/
def filesConsistent (md5 : String → String) : DirC → Bool
  | .mk _ fs ds =>
    (fs.all (fun f => f.hash == "" || f.hash == md5 f.contents)) &&
    filesConsistentDirs md5 ds

/-- `filesConsistent` over a directory list. -/
def filesConsistentDirs (md5 : String → String) : DirList → Bool
  | .nil => true
  | .cons d rest => filesConsistent md5 d && filesConsistentDirs md5 rest

end

/-- The file entry attached by `write_difference`: with content it carries
the contents and the cached-or-computed hash, without content only the
name. -/
def fileEntry (md5 : String → String) (wc : Bool) (f : FileC) : FileC :=
  if wc then ⟨f.name, f.contents, file_hash md5 f⟩ else ⟨f.name, "", ""⟩

mutual

/-- `write_difference(pack, from, to, with_content)`: sets the pack's name
to `to`'s, walks `to`'s files attaching those with no same-name same-hash
counterpart in `from`, then walks `to`'s subdirectories attaching each
recursive diff that reports changes; returns the pack and the
`has_changes` flag. -/
def write_difference (md5 : String → String) (wc : Bool) (src : DirC) :
    DirC → DirC × Bool
  | .mk n fs ds =>
    let fr := fs.foldl
      (fun acc f =>
        if src.files.any (fun g => comp_file_hash md5 f g) then acc
        else (acc.1 ++ [fileEntry md5 wc f], true))
      (([] : List FileC), false)
    let dr := writeDiffDirs md5 wc src ds
    (DirC.mk n fr.1 dr.1, fr.2 || dr.2)

/-- The loop of `write_difference` over `to`'s directory children: each
child is diffed against the first same-named child of `from` (or a
synthetic empty directory) and attached only when that diff reports
changes. -/
def writeDiffDirs (md5 : String → String) (wc : Bool) (src : DirC) :
    DirList → DirList × Bool
  | .nil => (.nil, false)
  | .cons d rest =>
    let r := write_difference md5 wc
      (match src.dirs.findByName d.name with
       | some o => o
       | none => DirC.mk d.name [] .nil) d
    let tail := writeDiffDirs md5 wc src rest
    (if r.2 then DirList.cons r.1 tail.1 else tail.1, r.2 || tail.2)

end

/-- Whether a directory node has at least one file or directory child. -/
def dirNonempty : DirC → Bool
  | .mk _ fs ds => !fs.isEmpty || !ds.isEmpty

mutual

/-- The spec's `diff(from, to)` tree: keep exactly the files of `to` with
no same-name same-hash counterpart in `from` (as `fileEntry` entries), and
the recursive diffs of `to`'s subdirectories that are non-empty. Stated
from the spec's words, to be compared with `write_difference` above. -/
def diffSpec (md5 : String → String) (wc : Bool) (src : DirC) : DirC → DirC
  | .mk n fs ds =>
    DirC.mk n
      ((fs.filter (fun f => !(src.files.any (fun g => comp_file_hash md5 f g)))).map
        (fileEntry md5 wc))
      (diffSpecDirs md5 wc src ds)

/-- The directory part of `diffSpec`. -/
def diffSpecDirs (md5 : String → String) (wc : Bool) (src : DirC) :
    DirList → DirList
  | .nil => .nil
  | .cons d rest =>
    let s := diffSpec md5 wc
      ((src.dirs.findByName d.name).getD (DirC.mk d.name [] .nil)) d
    if dirNonempty s then DirList.cons s (diffSpecDirs md5 wc src rest)
    else diffSpecDirs md5 wc src rest

end

/-- `make_updatepack`: the `removelist` diffs the new tree against the old
without content, the `addlist` diffs the old tree against the new with
content (note the swapped argument order in the source). The result pair
is (removelist, addlist). -/
def make_updatepack (md5 : String → String) (src dst : DirC) : DirC × DirC :=
  ((write_difference md5 false dst src).1, (write_difference md5 true src dst).1)

/-- Whether the directory names in the list are pairwise distinct. -/
def namesNodupD : DirList → Bool
  | .nil => true
  | .cons d rest => !(rest.toList.any (fun o => o.name == d.name)) && namesNodupD rest

mutual

/-- Whether, at every level of the tree, sibling directories have pairwise
distinct names. -/
def uniqDirNames : DirC → Bool
  | .mk _ _ ds => namesNodupD ds && allUniqD ds

/-- `uniqDirNames` for every directory in a list. -/
def allUniqD : DirList → Bool
  | .nil => true
  | .cons d rest => uniqDirNames d && allUniqD rest

end

/-! ## Case-insensitive duplicate detection -/

/-- ASCII-only lower-casing of one character (`to_lower_copy`, classic
locale). -/
def toLowerChar (c : Char) : Char :=
  if 65 ≤ c.toNat ∧ c.toNat ≤ 90 then Char.ofNat (c.toNat + 32) else c

/-- ASCII-only lower-casing of a string. -/
def toLowerCopy (s : String) : String :=
  String.mk (s.data.map toLowerChar)

/-- Lookup in the per-level `filenames` map, keyed by lower-cased name;
the value is the `(printed, original)` pair. -/
def alookup : List (String × Bool × String) → String → Option (Bool × String)
  | [], _ => none
  | (k, p, o) :: rest, key => if k == key then some (p, o) else alookup rest key

/-- Assignment `filenames[key] = v` in the per-level map. -/
def aset : List (String × Bool × String) → String → Bool × String →
    List (String × Bool × String)
  | [], key, v => [(key, v.1, v.2)]
  | (k, p, o) :: rest, key, v =>
    if k == key then (k, v.1, v.2) :: rest else (k, p, o) :: aset rest key v

/-- One name processed by `check_case_insensitive_duplicates_internal` in
diagnostic mode: the state is the per-level map and the accumulated
badlist. A fresh key is inserted as `(false, prefixed path)`; a collision
on an unprinted key pushes the original path and the new path and marks
the key printed; a collision on a printed key pushes only the new path. -/
def dupStep (pfx : String) (st : List (String × Bool × String) × List String)
    (nm : String) : List (String × Bool × String) × List String :=
  let key := toLowerCopy nm
  let wp := pfx ++ nm
  match alookup st.1 key with
  | none => (st.1 ++ [(key, false, wp)], st.2)
  | some (printed, original) =>
    if printed then (st.1, st.2 ++ [wp])
    else (aset st.1 key (true, ""), st.2 ++ [original, wp])

mutual

/-- `check_case_insensitive_duplicates_internal` in diagnostic mode: the
badlist it accumulates. File names are processed first, then directory
names against the same per-level map, recursing into each subdirectory
with the original-cased name appended to the prefix. -/
def check_case_insensitive_duplicates_internal (pfx : String) : DirC → List String
  | .mk _ fs ds =>
    ccidDirs pfx (fs.foldl (fun st f => dupStep pfx st f.name) ([], [])) ds

/-- The directory loop of `check_case_insensitive_duplicates_internal`:
collision bookkeeping for the directory's own name, then the recursive
badlist of the subdirectory, then the remaining siblings. -/
def ccidDirs (pfx : String) (st : List (String × Bool × String) × List String) :
    DirList → List String
  | .nil => st.2
  | .cons d rest =>
    let st2 := dupStep pfx st d.name
    ccidDirs pfx (st2.1, st2.2 ++ check_case_insensitive_duplicates_internal
      (pfx ++ d.name ++ ("/")) d) rest

end

/-- `check_case_insensitive_duplicates`: the internal walk started with an
empty prefix. -/
def check_case_insensitive_duplicates (d : DirC) : List String :=
  check_case_insensitive_duplicates_internal ("") d

/-! ## Concrete trees used in counterexamples and witnesses -/

/-- A tree with two sibling directories both named `x`, the second of
which holds a file: `find_child` always returns the first. -/
def dupTree : DirC :=
  DirC.mk ("r") []
    (DirList.cons (DirC.mk ("x") [] DirList.nil)
      (DirList.cons (DirC.mk ("x") [⟨("f"), ("c"), ("")⟩] DirList.nil) DirList.nil))

/-- A tree with distinct sibling directory names but duplicate sibling
file names. -/
def sampleTree : DirC :=
  DirC.mk ("r") [⟨("a"), ("x"), ("")⟩, ⟨("a"), ("y"), ("")⟩]
    (DirList.cons (DirC.mk ("s") [⟨("b"), ("z"), ("h")⟩] DirList.nil) DirList.nil)

/-- A tree holding one file with a non-empty cached hash attribute. -/
def cachedTree : DirC :=
  DirC.mk ("r") [⟨("a"), ("c"), ("X")⟩] DirList.nil

/-- A tree whose cached hashes are empty or (under the identity digest)
equal to the digest of the contents. -/
def consistentTree : DirC :=
  DirC.mk ("r") [⟨("a"), ("x"), ("")⟩]
    (DirList.cons (DirC.mk ("s") [⟨("b"), ("z"), ("z")⟩] DirList.nil) DirList.nil)

end Wesnoth

namespace Wesnoth

/-! ## Lemmas and claim theorems for the codec -/

theorem unencode_encode (x : List Nat) :
    unencode_binary (encode_binary x) = x := by
  induction x with
  | nil => rfl
  | cons c rest ih =>
    by_cases h : needs_escaping c = true
    · have hc : c = 0 ∨ c = 1 ∨ c = 13 ∨ c = 254 := by
        simp [needs_escaping] at h
        omega
      simp only [encode_binary, h, if_pos]
      rcases hc with rfl | rfl | rfl | rfl <;>
        simp [unencode_binary, ih]
    · have hc1 : (c == 1) = false := by
        simp [needs_escaping] at h
        simp [h]
      simp only [encode_binary, h, Bool.false_eq_true, not_false_iff, ite_false]
      rw [unencode_binary.eq_def]
      simp [hc1, ih]

theorem encode_id_of_no_special (x : List Nat)
    (h : ∀ b ∈ x, ¬(b = 0 ∨ b = 1 ∨ b = 13 ∨ b = 254)) :
    encode_binary x = x := by
  induction x with
  | nil => rfl
  | cons c rest ih =>
    have hc := h c (by simp)
    have hne : needs_escaping c = false := by
      simp [needs_escaping]
      omega
    simp [encode_binary, hne, ih fun b hb => h b (by simp [hb])]

theorem allOnes_trailOnes (l : List Nat) (h : allOnes l = true) :
    trailOnes l = l.length := by
  cases l with
  | nil => rfl
  | cons c rest => simp [trailOnes, h]

theorem trailOnes_encode_even (x : List Nat) :
    trailOnes (encode_binary x) % 2 = 0 := by
  induction x with
  | nil => rfl
  | cons c rest ih =>
    by_cases h : needs_escaping c = true
    · simp only [encode_binary, h, if_pos]
      by_cases hall : allOnes (1 :: (c + 1) % 256 :: encode_binary rest) = true
      · have h2 : allOnes ((c + 1) % 256 :: encode_binary rest) = true := by
          simp [allOnes] at hall
          simp [allOnes, hall]
        have h3 : allOnes (encode_binary rest) = true := by
          simp [allOnes] at h2
          exact h2.2
        have h4 := allOnes_trailOnes _ h3
        have h5 : trailOnes (encode_binary rest) % 2 = 0 := ih
        simp only [trailOnes, hall, if_pos, List.length_cons]
        omega
      · have hallF : allOnes (1 :: (c + 1) % 256 :: encode_binary rest) = false := by
          simpa using hall
        have h2 : allOnes ((c + 1) % 256 :: encode_binary rest) = false := by
          simp [allOnes] at hallF ⊢
          intro hv
          exact hallF hv
        simp [trailOnes, hallF, h2, ih]
    · have hc1 : (c == 1) = false := by
        simp [needs_escaping] at h
        simp [h]
      have hall : allOnes (c :: encode_binary rest) = false := by
        simp [allOnes, hc1]
      simp [encode_binary, h, trailOnes, hall, ih]

/-- Claim C1: decoding inverts encoding on every byte sequence, and
encoding is the identity on byte sequences free of the special bytes
0x00, 0x01, 0x0D and 0xFE. -/
theorem C1_codec_roundtrip (x : List Nat) :
    unencode_binary (encode_binary x) = x ∧
    ((∀ b ∈ x, ¬(b = 0 ∨ b = 1 ∨ b = 13 ∨ b = 254)) → encode_binary x = x) :=
  ⟨unencode_encode x, encode_id_of_no_special x⟩

/-- Claim C1 witness: concrete instance of the round-trip law. -/
theorem C1_codec_roundtrip_witness :
    unencode_binary (encode_binary [0, 1, 13, 254, 65]) = [0, 1, 13, 254, 65] ∧
    encode_binary [2, 3, 65] = [2, 3, 65] :=
  ⟨(C1_codec_roundtrip [0, 1, 13, 254, 65]).1,
   (C1_codec_roundtrip [2, 3, 65]).2 (by decide)⟩

/-- Claim C9: `unencode_binary` is a total function on byte sequences; a
marker byte 0x01 that is the very last byte is emitted literally, any
other marker consumes the following byte `b` and emits `b - 1` in byte
arithmetic (so 255 when `b = 0`), and non-marker bytes pass through. -/
theorem C9_unencode_total (c b : Nat) (rest : List Nat) (hc : c ≠ 1) :
    unencode_binary [] = [] ∧
    unencode_binary [1] = [1] ∧
    unencode_binary (1 :: b :: rest) = ((b + 255) % 256) :: unencode_binary rest ∧
    (1 ≤ b → b ≤ 255 → unencode_binary (1 :: b :: rest) = (b - 1) :: unencode_binary rest) ∧
    unencode_binary (c :: rest) = c :: unencode_binary rest := by
  have hc' : (c == 1) = false := by simp [hc]
  have heq : unencode_binary (1 :: b :: rest) = ((b + 255) % 256) :: unencode_binary rest := by
    rw [unencode_binary.eq_def]
    simp
  have heq2 : unencode_binary (c :: rest) = c :: unencode_binary rest := by
    rw [unencode_binary.eq_def]
    cases rest <;> simp [hc']
  refine ⟨rfl, rfl, heq, ?_, heq2⟩
  intro h1 h2
  have hv : (b + 255) % 256 = b - 1 := by omega
  rw [heq, hv]

/-- Claim C9 witness: concrete instances of the decode equations. -/
theorem C9_unencode_total_witness :
    unencode_binary [1] = [1] ∧
    unencode_binary (1 :: 14 :: [7]) = ((14 + 255) % 256) :: unencode_binary [7] ∧
    unencode_binary (1 :: 14 :: [7]) = (14 - 1) :: unencode_binary [7] ∧
    unencode_binary (9 :: [7]) = 9 :: unencode_binary [7] :=
  ⟨(C9_unencode_total 9 14 [7] (by decide)).2.1,
   (C9_unencode_total 9 14 [7] (by decide)).2.2.1,
   (C9_unencode_total 9 14 [7] (by decide)).2.2.2.1 (by decide) (by decide),
   (C9_unencode_total 9 14 [7] (by decide)).2.2.2.2⟩

/-- Claim C10 counterexample: the claim says the marker 0x01 is never the
last byte of `encode_binary`'s output, but encoding the single byte 0x00
yields `[0x01, 0x01]`, whose last byte is the marker. -/
theorem C10_marker_last_counterexample :
    encode_binary [0] = [1, 1] ∧ (encode_binary [0]).getLast? = some 1 := by
  decide

/-- Claim C10 (amended): the output of `encode_binary` never contains the
bytes 0x00, 0x0D or 0xFE, and the maximal run of marker bytes 0x01 at the
end of the output has even length (every escape pair is complete; a
trailing marker can only be the second byte of an escape pair, so decoding
never meets a truncated escape). -/
theorem C10_encode_invariants (x : List Nat) :
    (encode_binary x).all (fun b => !(b == 0 || b == 13 || b == 254)) = true ∧
    trailOnes (encode_binary x) % 2 = 0 := by
  refine ⟨?_, trailOnes_encode_even x⟩
  induction x with
  | nil => rfl
  | cons c rest ih =>
    by_cases h : needs_escaping c = true
    · have hc : c = 0 ∨ c = 1 ∨ c = 13 ∨ c = 254 := by
        simp [needs_escaping] at h
        omega
      simp only [encode_binary, h, if_pos]
      rcases hc with rfl | rfl | rfl | rfl <;> simpa using ih
    · have hc : ¬(c = 0 ∨ c = 1 ∨ c = 13 ∨ c = 254) := by
        simp [needs_escaping] at h
        omega
      simp only [encode_binary, h, Bool.false_eq_true, not_false_iff, ite_false,
        List.all_cons, Bool.and_eq_true]
      refine ⟨by simp; omega, ih⟩

/-! ## Lemmas and claim theorems for filename legality -/

theorem addon_filename_legal_true_iff (name : List Nat) :
    addon_filename_legal name = true ↔
      (¬ name = [] ∧ name.getLast? ≠ some 46 ∧ hasDotDot name = false ∧
       name.length ≤ 255 ∧
       toUpperAscii (name.takeWhile (fun b => !(b == 46))) ∉ dos_device_names ∧
       utf8_encode (utf8_decode name) = name ∧
       ∀ c ∈ utf8_decode name, addon_filename_ucs4char_illegal c = false) := by
  unfold addon_filename_legal
  split_ifs with h1 h2 h3
  · simp only [Bool.false_eq_true, false_iff]
    simp only [Bool.or_eq_true, List.isEmpty_iff, beq_iff_eq, decide_eq_true_eq] at h1
    intro hr
    rcases h1 with ((h | h) | h) | h
    · exact hr.1 h
    · exact hr.2.1 h
    · rw [hr.2.2.1] at h
      exact Bool.false_ne_true h
    · have hlen := hr.2.2.2.1
      omega
  · simp only [Bool.false_eq_true, false_iff]
    simp only [List.any_eq_true, beq_iff_eq] at h2
    obtain ⟨d, hd, rfl⟩ := h2
    intro hr
    exact hr.2.2.2.2.1 hd
  · simp only [Bool.false_eq_true, false_iff]
    simp only [Bool.not_eq_true', beq_eq_false_iff_ne, ne_eq] at h3
    intro hr
    exact h3 hr.2.2.2.2.2.1
  · simp only [Bool.or_eq_true, List.isEmpty_iff, beq_iff_eq, decide_eq_true_eq,
      not_or] at h1
    obtain ⟨⟨⟨hne, hlast⟩, hdd⟩, hlen⟩ := h1
    simp only [List.any_eq_true, beq_iff_eq, not_exists, not_and] at h2
    simp only [Bool.not_eq_true', beq_eq_false_iff_ne, ne_eq, not_not] at h3
    simp only [Bool.not_eq_true', List.any_eq_false]
    constructor
    · intro hall
      refine ⟨hne, hlast, ?_, by omega, ?_, h3, ?_⟩
      · cases hdd2 : hasDotDot name
        · rfl
        · exact absurd hdd2 hdd
      · intro hmem
        exact h2 _ hmem rfl
      · intro c hc
        have hx := hall c hc
        cases hy : addon_filename_ucs4char_illegal c
        · rfl
        · exact absurd hy hx
    · intro hr c hc
      rw [hr.2.2.2.2.2.2 c hc]
      exact Bool.false_ne_true

set_option maxRecDepth 8000 in
/-- Claim C4: `addon_filename_legal` rejects the empty name, names ending
in `.`, names containing `..`, names longer than 255 bytes, and names
whose ASCII-upper-cased stem (the part before the first dot) is a reserved
DOS device name, regardless of what follows the first dot; in particular
it rejects the listed concrete names and accepts `readme.txt`,
`CONTROL.cfg` and `a-b_c.1`. -/
theorem C4_filename_basic_rules :
    (∀ name : List Nat,
      (name = [] ∨ name.getLast? = some 46 ∨ hasDotDot name = true ∨
        255 < name.length ∨
        toUpperAscii (name.takeWhile (fun b => !(b == 46))) ∈ dos_device_names) →
      addon_filename_legal name = false) ∧
    addon_filename_legal (strBytes ("")) = false ∧
    addon_filename_legal (strBytes ("a.")) = false ∧
    addon_filename_legal (strBytes ("a..b")) = false ∧
    addon_filename_legal (List.replicate 256 120) = false ∧
    addon_filename_legal (strBytes ("CON")) = false ∧
    addon_filename_legal (strBytes ("con.txt")) = false ∧
    addon_filename_legal (strBytes ("COM1.backup")) = false ∧
    addon_filename_legal (strBytes ("CONOUT$")) = false ∧
    addon_filename_legal (strBytes ("readme.txt")) = true ∧
    addon_filename_legal (strBytes ("CONTROL.cfg")) = true ∧
    addon_filename_legal (strBytes ("a-b_c.1")) = true := by
  refine ⟨?_, by decide, by decide, by decide, by decide, by decide, by decide,
    by decide, by decide, by decide, by decide, by decide⟩
  intro name h
  cases hb : addon_filename_legal name
  · rfl
  · exfalso
    have hr := (addon_filename_legal_true_iff name).mp hb
    rcases h with h | h | h | h | h
    · exact hr.1 h
    · exact hr.2.1 h
    · rw [hr.2.2.1] at h
      exact Bool.false_ne_true h
    · omega
    · exact hr.2.2.2.2.1 h

/-- Claim C4 witness: the general rejection rule applied to a name with a
reserved stem and more than one dot after it. -/
theorem C4_filename_basic_rules_witness :
    addon_filename_legal (strBytes ("NUL.x.y")) = false :=
  C4_filename_basic_rules.1 (strBytes ("NUL.x.y"))
    (Or.inr (Or.inr (Or.inr (Or.inr (by decide)))))

/-- Claim C5: `addon_filename_legal` rejects any name that the UTF-8
decode/re-encode round trip does not reproduce exactly, and any name whose
decoded code points contain a denylisted code point (space, `"`, `*`, `/`,
`:`, `<`, `>`, `?`, `\`, `|`, `~`, DEL, C0 or C1 controls, or UTF-16
surrogates). -/
theorem C5_filename_unicode_rules (name : List Nat)
    (h : utf8_encode (utf8_decode name) ≠ name ∨
         ∃ c ∈ utf8_decode name, addon_filename_ucs4char_illegal c = true) :
    addon_filename_legal name = false := by
  cases hb : addon_filename_legal name
  · rfl
  · exfalso
    have hr := (addon_filename_legal_true_iff name).mp hb
    rcases h with h | ⟨c, hc, hil⟩
    · exact h hr.2.2.2.2.2.1
    · rw [hr.2.2.2.2.2.2 c hc] at hil
      exact Bool.false_ne_true hil

/-- Claim C5 witness: a name containing a colon (byte 0x3A, a denylisted
code point) is rejected. -/
theorem C5_filename_unicode_rules_witness :
    addon_filename_legal (strBytes ("a:b")) = false :=
  C5_filename_unicode_rules (strBytes ("a:b")) (Or.inr (by decide))

/-! ## Lemmas and claim theorems for the tree operations -/

theorem comp_file_hash_self (md5 : String → String) (f : FileC) :
    comp_file_hash md5 f f = true := by
  simp [comp_file_hash]

theorem findByName_self : ∀ (ds : DirList) (d : DirC), d ∈ ds.toList →
    namesNodupD ds = true → DirList.findByName d.name ds = some d
  | .nil, d, hmem, _ => by simp [DirList.toList] at hmem
  | .cons a rest, d, hmem, hnodup => by
    simp only [DirList.toList, List.mem_cons] at hmem
    simp only [namesNodupD, Bool.and_eq_true, Bool.not_eq_true',
      List.any_eq_false] at hnodup
    rcases hmem with rfl | hmem
    · simp [DirList.findByName]
    · have hne : (a.name == d.name) = false := by
        cases hx : (a.name == d.name)
        · rfl
        · exfalso
          apply hnodup.1 d hmem
          simp only [beq_iff_eq] at hx ⊢
          exact hx.symm
      have hstep : DirList.findByName d.name (.cons a rest) =
          DirList.findByName d.name rest := by
        simp [DirList.findByName, hne]
      rw [hstep]
      exact findByName_self rest d hmem hnodup.2

mutual

theorem contains_refl (md5 : String → String) :
    ∀ (T : DirC), uniqDirNames T = true → contains_hashlist md5 T T = true
  | .mk n fs ds, h => by
    simp only [uniqDirNames, Bool.and_eq_true] at h
    simp only [contains_hashlist, DirC.files, Bool.and_eq_true]
    constructor
    · rw [List.all_eq_true]
      intro f hf
      rw [List.any_eq_true]
      exact ⟨f, hf, comp_file_hash_self md5 f⟩
    · exact containsDirs_refl md5 (DirC.mk n fs ds) ds
        (fun d hd => findByName_self ds d hd h.1) h.2

theorem containsDirs_refl (md5 : String → String) (src : DirC) :
    ∀ (ds : DirList),
      (∀ d ∈ ds.toList, DirList.findByName d.name src.dirs = some d) →
      allUniqD ds = true → containsDirs md5 src ds = true
  | .nil, _, _ => rfl
  | .cons d rest, hfind, hu => by
    simp only [allUniqD, Bool.and_eq_true] at hu
    simp only [containsDirs, Bool.and_eq_true]
    constructor
    · rw [hfind d (by simp [DirList.toList])]
      exact contains_refl md5 d hu.1
    · refine containsDirs_refl md5 src rest (fun x hx => hfind x ?_) hu.2
      simp only [DirList.toList, List.mem_cons]
      exact Or.inr hx

end

/-- Claim C2 counterexample: containment is not reflexive on the tree with
two sibling directories both named `x` where only the second holds a file:
`find_child` returns the first same-named directory, which does not
contain the second's file. -/
theorem C2_contains_refl_counterexample :
    contains_hashlist (fun s => s) dupTree dupTree = false ∧
    (DirList.findByName ("x") dupTree.dirs).isSome = true := by
  decide

/-- Claim C2 (amended): containment is reflexive for every tree in which,
at every level, sibling directories have pairwise distinct names; sibling
files may share names freely. (With duplicate sibling directory names,
`find_child` returns only the first match, so reflexivity can fail.) -/
theorem C2_contains_refl (md5 : String → String) (T : DirC)
    (h : uniqDirNames T = true) : contains_hashlist md5 T T = true :=
  contains_refl md5 T h

/-- Claim C2 witness: reflexive containment on a tree with a subdirectory
and two sibling files sharing the name `a`. -/
theorem C2_contains_refl_witness :
    uniqDirNames sampleTree = true ∧
    contains_hashlist (fun s => s) sampleTree sampleTree = true :=
  ⟨by decide, C2_contains_refl (fun s => s) sampleTree (by decide)⟩

theorem filesFoldSpec (md5 : String → String) (wc : Bool) (src : DirC) :
    ∀ (fs : List FileC) (acc : List FileC) (b : Bool),
      fs.foldl (fun acc2 f =>
          if src.files.any (fun g => comp_file_hash md5 f g) then acc2
          else (acc2.1 ++ [fileEntry md5 wc f], true)) (acc, b) =
        (acc ++ ((fs.filter
            (fun f => !(src.files.any (fun g => comp_file_hash md5 f g)))).map
          (fileEntry md5 wc)),
         b || !((fs.filter
            (fun f => !(src.files.any (fun g => comp_file_hash md5 f g)))).isEmpty))
  | [], acc, b => by simp
  | f :: rest, acc, b => by
    rw [List.foldl_cons]
    by_cases hf : src.files.any (fun g => comp_file_hash md5 f g) = true
    · simp only [hf, if_pos]
      rw [filesFoldSpec md5 wc src rest acc b]
      simp [List.filter_cons, hf]
    · have hf2 : (src.files.any (fun g => comp_file_hash md5 f g)) = false := by
        simpa using hf
      simp only [hf2, Bool.false_eq_true, if_neg, not_false_iff]
      rw [filesFoldSpec md5 wc src rest (acc ++ [fileEntry md5 wc f]) true]
      simp [List.filter_cons, hf2]

mutual

theorem wd_spec (md5 : String → String) (wc : Bool) (src : DirC) :
    ∀ (T : DirC), write_difference md5 wc src T =
      (diffSpec md5 wc src T, dirNonempty (diffSpec md5 wc src T))
  | .mk n fs ds => by
    have hfold := filesFoldSpec md5 wc src fs [] false
    have hd := wdDirs_spec md5 wc src ds
    simp only [write_difference, diffSpec]
    rw [hfold, hd]
    have hm : ∀ (l : List FileC),
        ((l.map (fileEntry md5 wc)).isEmpty) = l.isEmpty := by
      intro l
      cases l <;> rfl
    simp [dirNonempty, hm]

theorem wdDirs_spec (md5 : String → String) (wc : Bool) (src : DirC) :
    ∀ (ds : DirList), writeDiffDirs md5 wc src ds =
      (diffSpecDirs md5 wc src ds, !((diffSpecDirs md5 wc src ds).isEmpty))
  | .nil => rfl
  | .cons d rest => by
    have h2 := wdDirs_spec md5 wc src rest
    simp only [writeDiffDirs, diffSpecDirs]
    cases hfb : DirList.findByName d.name src.dirs with
    | none =>
      have h1 := wd_spec md5 wc (DirC.mk d.name [] DirList.nil) d
      rw [h1, h2]
      by_cases hne : dirNonempty (diffSpec md5 wc (DirC.mk d.name [] DirList.nil) d) = true
      · simp [hne, DirList.isEmpty]
      · have hne2 : dirNonempty (diffSpec md5 wc (DirC.mk d.name [] DirList.nil) d) = false := by
          simpa using hne
        simp [hne2]
    | some o =>
      have h1 := wd_spec md5 wc o d
      rw [h1, h2]
      by_cases hne : dirNonempty (diffSpec md5 wc o d) = true
      · simp [hne, DirList.isEmpty]
      · have hne2 : dirNonempty (diffSpec md5 wc o d) = false := by
          simpa using hne
        simp [hne2]

end

mutual

theorem diffSpec_refl (md5 : String → String) (wc : Bool) :
    ∀ (T : DirC), uniqDirNames T = true →
      diffSpec md5 wc T T = DirC.mk T.name [] DirList.nil
  | .mk n fs ds, h => by
    simp only [uniqDirNames, Bool.and_eq_true] at h
    simp only [diffSpec, DirC.name]
    have hfs : fs.filter
        (fun f => !((DirC.mk n fs ds).files.any (fun g => comp_file_hash md5 f g))) = [] := by
      rw [List.filter_eq_nil_iff]
      intro f hf
      simp only [DirC.files, Bool.not_eq_true', Bool.not_eq_false]
      rw [List.any_eq_true]
      exact ⟨f, hf, comp_file_hash_self md5 f⟩
    rw [hfs]
    simp only [List.map_nil]
    have hds := diffSpecDirs_refl md5 wc (DirC.mk n fs ds) ds
      (fun d hd => findByName_self ds d hd h.1) h.2
    rw [hds]

theorem diffSpecDirs_refl (md5 : String → String) (wc : Bool) (src : DirC) :
    ∀ (ds : DirList),
      (∀ d ∈ ds.toList, DirList.findByName d.name src.dirs = some d) →
      allUniqD ds = true → diffSpecDirs md5 wc src ds = DirList.nil
  | .nil, _, _ => rfl
  | .cons d rest, hfind, hu => by
    simp only [allUniqD, Bool.and_eq_true] at hu
    simp only [diffSpecDirs]
    rw [hfind d (by simp [DirList.toList]), Option.getD_some,
      diffSpec_refl md5 wc d hu.1]
    have hne : dirNonempty (DirC.mk d.name [] DirList.nil) = false := rfl
    rw [hne]
    simp only [Bool.false_eq_true, if_neg, not_false_iff, ite_false]
    refine diffSpecDirs_refl md5 wc src rest (fun x hx => hfind x ?_) hu.2
    simp only [DirList.toList, List.mem_cons]
    exact Or.inr hx

end

/-- Claim C6: `write_difference` computes exactly the spec's diff: a file
of `to` is attached iff no file of `from` shares its name and hash, a
subdirectory is attached iff its recursive diff (against the first
same-named subdirectory of `from`, or a synthetic empty directory) is
non-empty, the returned flag is true iff at least one file or subdirectory
was attached, and attached files carry contents and hash exactly when
`with_content` is true. -/
theorem C6_write_difference_correct (md5 : String → String) (src dst : DirC)
    (wc : Bool) :
    write_difference md5 wc src dst =
      (diffSpec md5 wc src dst, dirNonempty (diffSpec md5 wc src dst)) ∧
    (∀ f : FileC,
      fileEntry md5 true f = ⟨f.name, f.contents, file_hash md5 f⟩ ∧
      fileEntry md5 false f = ⟨f.name, "", ""⟩) :=
  ⟨wd_spec md5 wc src dst, fun _ => ⟨rfl, rfl⟩⟩

/-- Claim C3 counterexample: on the tree with two sibling directories both
named `x` (the second holding a file), `make_updatepack(pack, T, T)`
produces a removelist and an addlist that both carry a directory entry. -/
theorem C3_updatepack_self_counterexample :
    ((make_updatepack (fun s => s) dupTree dupTree).1.dirs).isEmpty = false ∧
    ((make_updatepack (fun s => s) dupTree dupTree).2.dirs).isEmpty = false := by
  decide

/-- Claim C3 (amended): when `from == to` and, at every level of the tree,
sibling directories have pairwise distinct names, the update pack's
removelist and addlist contain no file entries and no dir entries. (With
duplicate sibling directory names, `find_child` pairs a directory with the
first same-named sibling, so a self-diff can report changes.) -/
theorem C3_updatepack_self (md5 : String → String) (T : DirC)
    (h : uniqDirNames T = true) :
    (make_updatepack md5 T T).1.files = [] ∧
    (make_updatepack md5 T T).1.dirs = DirList.nil ∧
    (make_updatepack md5 T T).2.files = [] ∧
    (make_updatepack md5 T T).2.dirs = DirList.nil := by
  have h1 := wd_spec md5 false T T
  have h2 := wd_spec md5 true T T
  have e1 := diffSpec_refl md5 false T h
  have e2 := diffSpec_refl md5 true T h
  simp [make_updatepack, h1, h2, e1, e2, DirC.files, DirC.dirs]

/-- Claim C3 witness: the empty self-pack on a concrete tree with a
subdirectory and duplicate sibling file names. -/
theorem C3_updatepack_self_witness :
    uniqDirNames sampleTree = true ∧
    (make_updatepack (fun s => s) sampleTree sampleTree).1.files = [] ∧
    (make_updatepack (fun s => s) sampleTree sampleTree).1.dirs = DirList.nil ∧
    (make_updatepack (fun s => s) sampleTree sampleTree).2.files = [] ∧
    (make_updatepack (fun s => s) sampleTree sampleTree).2.dirs = DirList.nil :=
  ⟨by decide, C3_updatepack_self (fun s => s) sampleTree (by decide)⟩

mutual

theorem hashlist_eq_spec (md5 : String → String) :
    ∀ (T : DirC), filesConsistent md5 T = true →
      write_hashlist md5 T = build_hashlist_spec md5 T
  | .mk n fs ds, h => by
    simp only [filesConsistent, Bool.and_eq_true] at h
    simp only [write_hashlist, build_hashlist_spec]
    have hfs : fs.map (fun f => (⟨f.name, "", file_hash_raw md5 f⟩ : FileC)) =
        fs.map (fun f => (⟨f.name, "", file_hash md5 f⟩ : FileC)) := by
      apply List.map_congr_left
      intro f hf
      have h2 := (List.all_eq_true.mp h.1) f hf
      simp only [Bool.or_eq_true, beq_iff_eq] at h2
      rcases h2 with h2 | h2
      · simp [file_hash, file_hash_raw, h2]
      · simp [file_hash, file_hash_raw, h2]
    rw [hfs, hashlistDirs_eq_spec md5 ds h.2]

theorem hashlistDirs_eq_spec (md5 : String → String) :
    ∀ (ds : DirList), filesConsistentDirs md5 ds = true →
      write_hashlistDirs md5 ds = build_hashlist_specDirs md5 ds
  | .nil, _ => rfl
  | .cons d rest, h => by
    simp only [filesConsistentDirs, Bool.and_eq_true] at h
    simp only [write_hashlistDirs, build_hashlist_specDirs]
    rw [hashlist_eq_spec md5 d h.1, hashlistDirs_eq_spec md5 rest h.2]

end

/-- Claim C7 counterexample: `write_hashlist` records the digest
recomputed from the contents (`file_hash_raw`), not the cached-or-computed
`file_hash` the claim names: on a file with cached hash `X` and contents
`c`, under a digest mapping everything to `Y`, the recorded hash is `Y`
while `file_hash` returns the cached `X`. -/
theorem C7_hashlist_counterexample :
    (write_hashlist (fun _ => ("Y")) cachedTree).files = [⟨("a"), (""), ("Y")⟩] ∧
    (build_hashlist_spec (fun _ => ("Y")) cachedTree).files = [⟨("a"), (""), ("X")⟩] ∧
    file_hash (fun _ => ("Y")) ⟨("a"), ("c"), ("X")⟩ = ("X") ∧
    ¬((("Y") : String) = ("X")) := by
  decide

/-- Claim C7 (amended): `write_hashlist` records `file_hash_raw(f)`, the
digest recomputed from the file's contents, ignoring any cached hash; this
coincides with the spec's `hash_of` exactly on trees whose every file has
an empty cached hash or a cached hash equal to the digest of its
contents. -/
theorem C7_hashlist_records_raw (md5 : String → String) (T : DirC)
    (h : filesConsistent md5 T = true) :
    write_hashlist md5 T = build_hashlist_spec md5 T :=
  hashlist_eq_spec md5 T h

/-- Claim C7 witness: the amended statement on a concrete consistent
tree. -/
theorem C7_hashlist_records_raw_witness :
    filesConsistent (fun s => s) consistentTree = true ∧
    write_hashlist (fun s => s) consistentTree =
      build_hashlist_spec (fun s => s) consistentTree :=
  ⟨by decide, C7_hashlist_records_raw (fun s => s) consistentTree (by decide)⟩

/-- Claim C8: in diagnostic mode, the first collision on a lower-cased key
emits the originally-seen path and the new path, every later collision on
that key emits only the new path; and on a directory holding
`Readme.txt` and `readme.TXT` both paths are reported. -/
theorem ccid_internal_unfold (pfx n : String) (fs : List FileC) (ds : DirList) :
    check_case_insensitive_duplicates_internal pfx (DirC.mk n fs ds) =
      ccidDirs pfx (fs.foldl (fun st f => dupStep pfx st f.name) ([], [])) ds :=
  rfl

theorem ccidDirs_nil (pfx : String)
    (st : List (String × Bool × String) × List String) :
    ccidDirs pfx st DirList.nil = st.2 :=
  rfl

theorem C8_case_duplicates (pfx n1 n2 n3 c1 c2 c3 g1 g2 g3 : String)
    (e2 : toLowerCopy n2 = toLowerCopy n1) (e3 : toLowerCopy n3 = toLowerCopy n1) :
    check_case_insensitive_duplicates_internal pfx
        (DirC.mk ("d") [⟨n1, c1, g1⟩, ⟨n2, c2, g2⟩, ⟨n3, c3, g3⟩] DirList.nil) =
      [pfx ++ n1, pfx ++ n2, pfx ++ n3] ∧
    check_case_insensitive_duplicates
        (DirC.mk ("d") [⟨("Readme.txt"), (""), ("")⟩, ⟨("readme.TXT"), (""), ("")⟩]
          DirList.nil) =
      [("Readme.txt"), ("readme.TXT")] := by
  constructor
  · rw [ccid_internal_unfold, ccidDirs_nil]
    simp only [List.foldl_cons, List.foldl_nil]
    simp [dupStep, alookup, aset, e2, e3]
  · decide

/-- Claim C8 witness: three same-keyed names under a prefix; the original
path is reported once, each collision adds the new path. -/
theorem C8_case_duplicates_witness :
    check_case_insensitive_duplicates_internal ("d/")
        (DirC.mk ("d") [⟨("AA"), ("u"), ("")⟩, ⟨("aa"), ("v"), ("")⟩,
          ⟨("aA"), ("w"), ("")⟩] DirList.nil) =
      [("d/") ++ ("AA"), ("d/") ++ ("aa"), ("d/") ++ ("aA")] :=
  (C8_case_duplicates ("d/") ("AA") ("aa") ("aA") ("u") ("v") ("w") ("") ("") ("")
    (by decide) (by decide)).1

end Wesnoth
